import Mathlib

/-!
Verification of the advanced-vector repository (src/advanced-vector/vector.h).

The C++ code implements a growable contiguous array on top of raw memory:
a `RawMemory<T>` block of `capacity_` element slots, of which the `Vector<T>`
keeps the first `size_` constructed ("live") and the rest uninitialized.

Shallow embedding: a block of raw memory is a `List (Option A)` whose length is
the block's capacity; `none` models an uninitialized (raw) slot and `some x`
models a live, constructed element holding value `x`.  Element values are pure,
so a C++ move and a C++ copy both transfer the value; a moved-from element is
still a live object in C++, so its slot stays `some` in the model.  Destroying
an element sets its slot back to `none`.  Each Lean definition below mirrors
one function of vector.h, statement by statement; exceptions thrown by element
copy/move constructors are modelled in a second, fallible layer further down
via an explicit budget of element constructions that succeed before one throws.
-/

/-- Storage block of an element type: one entry per allocated slot.
`none` is a raw (uninitialized) slot, `some x` a constructed element. -/
abbrev Buf (α : Type) := List (Option α)

/-- Allocate in `RawMemory`: `n` raw slots, no element constructed
(vector.h line 79, `Allocate`). A zero-size block is the empty list,
matching the null buffer of the source. -/
def rawBlock (α : Type) (n : Nat) : Buf α := List.replicate n none

/-- Overwrite the slots `[i, i + vs.length)` of `buf` with `vs`.
This is the common shape of every bulk slot update in vector.h. -/
def setRange (buf : Buf α) (i : Nat) (vs : Buf α) : Buf α :=
  buf.take i ++ vs ++ buf.drop (i + vs.length)

/-- Construct the values `vs` into the slots of `buf` starting at offset `i`:
models a run of placement-new constructions, or of assignments, since both
leave the destination slots live with the given values. -/
def writeAt (buf : Buf α) (i : Nat) (vs : List α) : Buf α :=
  setRange buf i (vs.map some)

/-- Destroy the `n` elements at slots `[i, i + n)`: models `DestroyN`
(vector.h line 300) and `std::destroy_n` — the slots become raw again. -/
def destroyAt (buf : Buf α) (i n : Nat) : Buf α :=
  setRange buf i (List.replicate n none)

/-- Transfer the contents of slots `[i, i + n)` of `src` into `dst` at offset
`j`: models `CopyOrMoveData` (vector.h line 306), `std::uninitialized_copy_n`,
`std::uninitialized_move_n`, `std::copy` and `std::move` of a slot range —
in the value model all of them put the source values into the destination.
All source slots are read before any destination slot is written, which is
exactly the overlap guarantee `std::move_backward` provides. -/
def copySlots (src : Buf α) (i n : Nat) (dst : Buf α) (j : Nat) : Buf α :=
  setRange dst j ((src.drop i).take n)

/-- State of a `Vector<T>` (vector.h lines 296-298): the `RawMemory` block
(`data`, whose length is `capacity_`) and the count `size` of live elements. -/
structure Vec (α : Type) where
  data : Buf α
  size : Nat
deriving Repr, DecidableEq

/-- Capacity of the vector: the length of the owned block
(vector.h line 182, `Capacity`). -/
def Vec.capacity (v : Vec α) : Nat := v.data.length

/-- Observable element sequence: the slots of the live region `[0, size)`. -/
def Vec.elems (v : Vec α) : Buf α := v.data.take v.size

/-- Indexed access `operator[]` (vector.h line 177): reads slot `index`.
Precondition in the source: `index < size_` (assert); reading any other slot
is a contract breach, modelled as the junk value `none`. -/
def Vec.get (v : Vec α) (index : Nat) : Option α := v.data.getD index none

/-- Default constructor (vector.h line 99): null block, size 0. -/
def Vec.empty (α : Type) : Vec α := ⟨[], 0⟩

/-- Sized constructor `Vector(size_t size)` (vector.h lines 101-106):
allocates exactly `size` slots and value-constructs `size` elements, each
holding the default value `d` of the element type. -/
def Vec.ofSize (d : α) (size : Nat) : Vec α :=
  ⟨writeAt (rawBlock α size) 0 (List.replicate size d), size⟩

/-- Copy constructor (vector.h lines 108-113): allocates exactly
`other.size` slots and copy-constructs the `other.size` live elements. -/
def Vec.copy (other : Vec α) : Vec α :=
  ⟨copySlots other.data 0 other.size (rawBlock α other.size) 0, other.size⟩

/-- Swap member (vector.h lines 291-294): exchanges block and size of the two
objects; the pair is (new state of `this`, new state of `other`). -/
def Vec.swap (self other : Vec α) : Vec α × Vec α := (other, self)

/-- Move constructor (vector.h lines 115-120): initializes `this` empty, then
swaps with `other`.  Result: (the new vector, the moved-from source).
The source operation is `noexcept`: it cannot fail, and the model is total. -/
def Vec.moveCtor (other : Vec α) : Vec α × Vec α := Vec.swap (Vec.empty α) other

/-- Move assignment (vector.h lines 143-148): `if (this != &rhs) Swap(rhs)`.
`same` models the pointer identity test `this == &rhs`; the pair returned is
(new state of `this`, new state of `rhs`).  Note the source SWAPS: the
right-hand side ends up holding the left-hand side's former contents.
The source operation is `noexcept`: it cannot fail, and the model is total. -/
def Vec.moveAssign (same : Bool) (self rhs : Vec α) : Vec α × Vec α :=
  if same then (self, rhs) else Vec.swap self rhs

/-- Copy assignment (vector.h lines 122-141), failure-free path. `same` models
`this == &rhs`.  If `rhs.size_ > data_.Capacity()`: build a full copy of `rhs`
and swap it in (the temporary then destroys the old contents).  Otherwise
transfer in place: overwrite the overlapping prefix by assignment
(`std::copy`), then destroy the excess suffix (shrinking branch,
`std::destroy_n`) or copy-construct the missing suffix (growing branch,
`std::uninitialized_copy_n`); finally `size_ = rhs.size_`. -/
def Vec.copyAssign (same : Bool) (self rhs : Vec α) : Vec α :=
  if same then self
  else if rhs.size > self.capacity then Vec.copy rhs
  else if self.size > rhs.size then
    { data := destroyAt (copySlots rhs.data 0 rhs.size self.data 0)
        rhs.size (self.size - rhs.size)
      size := rhs.size }
  else
    { data := copySlots rhs.data self.size (rhs.size - self.size)
        (copySlots rhs.data 0 self.size self.data 0) self.size
      size := rhs.size }

/-- Destructor body (vector.h lines 150-152): `DestroyN(data_, size_)` —
destroys the first `size` slots of the block, then the block itself is
deallocated by the `RawMemory` destructor.  The function returns the block
contents right before deallocation, which is what the claim about the
destructor quantifies over. -/
def Vec.destruct (v : Vec α) : Buf α := destroyAt v.data 0 v.size

/-- Reserve (vector.h lines 265-274): no-op when `new_capacity ≤ capacity`;
otherwise allocate exactly `new_capacity` slots, transfer the `size` live
elements (`CopyOrMoveData`), adopt the new block and destroy the originals
(the old block is then deallocated). -/
def Vec.reserve (v : Vec α) (new_capacity : Nat) : Vec α :=
  if new_capacity ≤ v.capacity then v
  else { data := copySlots v.data 0 v.size (rawBlock α new_capacity) 0
         size := v.size }

/-- Resize (vector.h lines 276-285): shrink by destroying the trailing
`size - new_size` elements, or grow by reserving and value-constructing the
missing `new_size - size` trailing elements with the default value `d`. -/
def Vec.resize (d : α) (v : Vec α) (new_size : Nat) : Vec α :=
  if new_size < v.size then
    { data := destroyAt v.data new_size (v.size - new_size), size := new_size }
  else if new_size > v.size then
    let w := v.reserve new_size
    { data := writeAt w.data w.size (List.replicate (new_size - w.size) d)
      size := new_size }
  else v

/-- Emplace (vector.h lines 186-230), failure-free semantics.  The iterator
argument `pos` is the index `i` (the source iterator `data_ + i`), the
constructed element's value is `x`; the result pairs the new vector state with
the returned iterator's index.

Fast path (`size_ < Capacity()`): at the end, construct directly into slot
`size`; in the middle, build the value in a temporary, move the last element
into the first free slot (`std::uninitialized_move_n(end()-1, 1, end())`),
shift `[i, size-1)` one slot right (`std::move_backward`, which reads each
source slot before overwriting it), then assign the temporary into slot `i`.

Slow path (`size_ == Capacity()`): allocate `max(1, 2*capacity)` slots,
construct the new element at offset `i` of the new block, transfer the prefix
`[0, i)` and the suffix `[i, size)` around it, then adopt the new block and
destroy the old elements.  (The source guards the prefix transfer with
`begin() != end()`, i.e. `size_ != 0`; when `size_ = 0` the prefix is empty
and the unguarded transfer of 0 elements is the same no-op.) -/
def Vec.emplace (v : Vec α) (pos : Nat) (x : α) : Vec α × Nat :=
  if v.size < v.capacity then
    if pos = v.size then
      ({ data := writeAt v.data v.size [x], size := v.size + 1 }, pos)
    else
      let d1 := copySlots v.data (v.size - 1) 1 v.data v.size
      let d2 := copySlots d1 pos (v.size - 1 - pos) d1 (pos + 1)
      ({ data := writeAt d2 pos [x], size := v.size + 1 }, pos)
  else
    let newCap := if v.capacity = 0 then 1 else v.capacity * 2
    let nd1 := writeAt (rawBlock α newCap) pos [x]
    let nd2 := copySlots v.data 0 pos nd1 0
    let nd3 := copySlots v.data pos (v.size - pos) nd2 (pos + 1)
    ({ data := nd3, size := v.size + 1 }, pos)

/-- EmplaceBack / PushBack (vector.h lines 232-235, 257-263):
`Emplace(end(), value)`. -/
def Vec.pushBack (v : Vec α) (x : α) : Vec α := (v.emplace v.size x).1

/-- Insert (vector.h lines 245-250): `Emplace(pos, value)`. -/
def Vec.insert (v : Vec α) (pos : Nat) (x : α) : Vec α × Nat := v.emplace pos x

/-- Sequential pushes, to state the amortized-growth property. -/
def Vec.pushList (v : Vec α) (xs : List α) : Vec α := xs.foldl Vec.pushBack v

/-- Erase (vector.h lines 237-243): shift `[pos+1, size)` one slot left by
assignment (`std::move`), destroy the vacated last slot, decrement size,
return the iterator (index) `pos`.  Precondition: `pos ∈ [0, size)`. -/
def Vec.erase (v : Vec α) (pos : Nat) : Vec α × Nat :=
  let d1 := copySlots v.data (pos + 1) (v.size - (pos + 1)) v.data pos
  ({ data := destroyAt d1 (v.size - 1) 1, size := v.size - 1 }, pos)

/-- PopBack (vector.h lines 252-255): destroy the last element, decrement
size.  Precondition: non-empty. -/
def Vec.popBack (v : Vec α) : Vec α :=
  { data := destroyAt v.data (v.size - 1) 1, size := v.size - 1 }

/-- Fallible element transfer.  `budget` is the number of element
constructions (copy or move) that still succeed before one throws.  A transfer
of `n` elements succeeds when `n ≤ budget` and consumes `n` units; otherwise
the element constructor throws partway.  `std::uninitialized_copy_n` and
`std::uninitialized_move_n` destroy the destination elements they had already
constructed before re-throwing, so on failure the destination buffer is
returned exactly as it was (its target slots were raw before the call and are
raw again after the cleanup). -/
def fCopySlots (src : Buf α) (i n : Nat) (dst : Buf α) (j : Nat)
    (budget : Nat) : Except Unit (Buf α) × Nat :=
  if n ≤ budget then (Except.ok (copySlots src i n dst j), budget - n)
  else (Except.error (), 0)

/-- Copy constructor with a fallible element copy (vector.h lines 108-113).
When `uninitialized_copy_n` throws, the partially constructed elements are
destroyed by it, the `RawMemory` member is deallocated by its own destructor,
and the exception propagates (`Except.error`): no vector is produced. -/
def Vec.copyF (other : Vec α) (budget : Nat) : Except Unit (Vec α) × Nat :=
  match fCopySlots other.data 0 other.size (rawBlock α other.size) 0 budget with
  | (Except.ok b, r) => (Except.ok ⟨b, other.size⟩, r)
  | (Except.error e, r) => (Except.error e, r)

/-- Copy assignment with a fallible element copy on the copy-and-swap path
(vector.h lines 122-141).  The result pairs the outcome (`ok` = returned
normally, `error` = exception propagated) with the state of `this` when
control leaves the operator.  On the copy-and-swap path the temporary
`rhs_copy` is built before `this` is touched, so a failure leaves `this`
exactly as it was.  The claim under verification makes no assertion about
element failures on the in-place path, so that path reuses the failure-free
transfer. -/
def Vec.copyAssignF (same : Bool) (self rhs : Vec α) (budget : Nat) :
    Except Unit Unit × Vec α :=
  if same then (Except.ok (), self)
  else if rhs.size > self.capacity then
    match Vec.copyF rhs budget with
    | (Except.ok c, _) => (Except.ok (), c)
    | (Except.error e, _) => (Except.error e, self)
  else (Except.ok (), Vec.copyAssign false self rhs)

/-- Reallocating (slow) path of Emplace with fallible element transfer
(vector.h lines 202-230), entered when `size_ == Capacity()`.  The new
element's own construction is taken to succeed — the claim under verification
is about a failing transfer of the prefix or the suffix.  The translation is
statement by statement:

1. allocate `max(1, 2*capacity)` raw slots;
2. construct the new element at offset `pos` of the new block;
3. `try { CopyOrMoveData(prefix) } catch(...) { new_data_pos->~T(); }` —
   note the handler destroys the new element and then FALLS THROUGH: the
   exception is not re-thrown, and execution continues with step 4
   (the try is guarded by `begin() != end()`, i.e. skipped when `size_ = 0`);
4. `try { CopyOrMoveData(suffix) } catch(...) { DestroyN(new_data, pos); }` —
   again the handler does not re-throw (and does not destroy the new element
   at offset `pos` either, only the prefix slots `[0, pos)`);
5. unconditionally swap in the new block, destroy the `size_` old elements,
   increment `size_` and return `new_data_pos`.

Because neither handler re-throws, the function returns normally on every
transfer-failure path, so the model is a total function to `Vec α × Nat`. -/
def Vec.emplaceReallocF (v : Vec α) (pos : Nat) (x : α) (budget : Nat) :
    Vec α × Nat :=
  let newCap := if v.capacity = 0 then 1 else v.capacity * 2
  let nd1 := writeAt (rawBlock α newCap) pos [x]
  let st2 :=
    if v.size = 0 then (nd1, budget)
    else
      match fCopySlots v.data 0 pos nd1 0 budget with
      | (Except.ok b, r) => (b, r)
      | (Except.error _, r) => (destroyAt nd1 pos 1, r)
  let nd3 :=
    match fCopySlots v.data pos (v.size - pos) st2.1 (pos + 1) st2.2 with
    | (Except.ok b, _) => b
    | (Except.error _, _) => destroyAt st2.1 0 pos
  ({ data := nd3, size := v.size + 1 }, pos)

/-- Data-model invariant (spec section 3): slots `[0, size)` live, slots
`[size, capacity)` raw, and `size ≤ capacity`. -/
def Vec.WF (v : Vec α) : Prop :=
  v.size ≤ v.capacity ∧
  (∀ i, i < v.size → (v.data.getD i none).isSome) ∧
  (∀ i, i < v.capacity → v.size ≤ i → v.data.getD i none = none)

instance (v : Vec Nat) : Decidable v.WF := by
  unfold Vec.WF; infer_instance

/-- Growth invariant maintained by sequences of PushBack calls: either the
vector is still the untouched empty one, or its capacity is a power of two
with `size ≤ capacity < 2 * size`. -/
def GoodCap (v : Vec α) : Prop :=
  (v.size = 0 ∧ v.capacity = 0) ∨
  (∃ k, v.capacity = 2 ^ k ∧ v.size ≤ v.capacity ∧ v.capacity < 2 * v.size)

/-! Basic lemmas about the slot primitives.  All statements read slots with
`getD · none`, which returns the slot contents in range and `none` out of
range; every operation of vector.h stays in range, which is what the side
hypotheses of the lemmas record. -/

theorem Buf.ext_getD {l1 l2 : Buf α} (hlen : l1.length = l2.length)
    (h : ∀ j, l1.getD j none = l2.getD j none) : l1 = l2 := by
  apply List.ext_getElem hlen
  intro n h1 h2
  have := h n
  simpa [List.getD_eq_getElem?_getD, List.getElem?_eq_getElem, h1, h2] using this

theorem getD_of_length_le {l : Buf α} {j : Nat} (h : l.length ≤ j) :
    l.getD j none = none := by
  simp [List.getD_eq_getElem?_getD, List.getElem?_eq_none h]

theorem rawBlock_length (α : Type) (n : Nat) : (rawBlock α n).length = n := by
  simp [rawBlock]

theorem rawBlock_getD (α : Type) (n j : Nat) :
    (rawBlock α n).getD j none = none := by
  rw [rawBlock, List.getD_eq_getElem?_getD, List.getElem?_replicate]
  split <;> rfl

theorem setRange_length {buf : Buf α} {i : Nat} {vs : Buf α}
    (h : i + vs.length ≤ buf.length) : (setRange buf i vs).length = buf.length := by
  rw [setRange]
  simp only [List.length_append, List.length_take, List.length_drop]
  rw [Nat.min_eq_left (by omega : i ≤ buf.length)]
  omega

theorem setRange_getD {buf : Buf α} {i : Nat} {vs : Buf α}
    (h : i + vs.length ≤ buf.length) (j : Nat) :
    (setRange buf i vs).getD j none =
      if j < i then buf.getD j none
      else if j < i + vs.length then vs.getD (j - i) none
      else buf.getD j none := by
  have hi : (buf.take i).length = i := by
    rw [List.length_take]
    omega
  simp only [List.getD_eq_getElem?_getD, setRange]
  rw [List.append_assoc, List.getElem?_append, hi]
  by_cases hj : j < i
  · rw [if_pos hj, if_pos hj, List.getElem?_take, if_pos hj]
  · rw [if_neg hj, if_neg hj, List.getElem?_append]
    by_cases hj2 : j < i + vs.length
    · have hlt : j - i < vs.length := by omega
      rw [if_pos hlt, if_pos hj2]
    · have hge : ¬ (j - i < vs.length) := by omega
      rw [if_neg hge, if_neg hj2, List.getElem?_drop]
      congr 2
      omega

theorem writeAt_length {buf : Buf α} {i : Nat} {vs : List α}
    (h : i + vs.length ≤ buf.length) : (writeAt buf i vs).length = buf.length := by
  rw [writeAt, setRange_length]
  simpa using h

theorem writeAt_getD {buf : Buf α} {i : Nat} {vs : List α}
    (h : i + vs.length ≤ buf.length) (j : Nat) :
    (writeAt buf i vs).getD j none =
      if j < i then buf.getD j none
      else if j < i + vs.length then vs[j - i]?
      else buf.getD j none := by
  rw [writeAt, setRange_getD (by simpa using h)]
  simp only [List.length_map]
  by_cases h1 : j < i
  · simp [h1]
  · by_cases h2 : j < i + vs.length
    · rw [if_neg h1, if_neg h1, if_pos h2, if_pos h2]
      rw [List.getD_eq_getElem?_getD, List.getElem?_map]
      cases vs[j - i]? <;> rfl
    · simp [h1, h2]

theorem destroyAt_length {buf : Buf α} {i n : Nat}
    (h : i + n ≤ buf.length) : (destroyAt buf i n).length = buf.length := by
  rw [destroyAt, setRange_length]
  simpa using h

theorem destroyAt_getD {buf : Buf α} {i n : Nat}
    (h : i + n ≤ buf.length) (j : Nat) :
    (destroyAt buf i n).getD j none =
      if i ≤ j ∧ j < i + n then none else buf.getD j none := by
  rw [destroyAt, setRange_getD (by simpa using h)]
  simp only [List.length_replicate]
  by_cases h1 : j < i
  · have hc : ¬ (i ≤ j ∧ j < i + n) := by omega
    simp [h1, hc]
  · by_cases h2 : j < i + n
    · have hc : i ≤ j ∧ j < i + n := by omega
      rw [if_neg h1, if_pos h2, if_pos hc]
      rw [List.getD_eq_getElem?_getD, List.getElem?_replicate]
      split <;> rfl
    · have hc : ¬ (i ≤ j ∧ j < i + n) := by omega
      simp [h1, h2, hc]

theorem copySlots_length {src : Buf α} {i n : Nat} {dst : Buf α} {j : Nat}
    (h1 : j + n ≤ dst.length) (h2 : i + n ≤ src.length) :
    (copySlots src i n dst j).length = dst.length := by
  rw [copySlots, setRange_length]
  rw [List.length_take, List.length_drop]
  omega

theorem copySlots_getD {src : Buf α} {i n : Nat} {dst : Buf α} {j : Nat}
    (h1 : j + n ≤ dst.length) (h2 : i + n ≤ src.length) (k : Nat) :
    (copySlots src i n dst j).getD k none =
      if j ≤ k ∧ k < j + n then src.getD (i + (k - j)) none
      else dst.getD k none := by
  have hlen : ((src.drop i).take n).length = n := by
    rw [List.length_take, List.length_drop]
    omega
  rw [copySlots, setRange_getD (by rw [hlen]; exact h1), hlen]
  by_cases hk : k < j
  · have hc : ¬ (j ≤ k ∧ k < j + n) := by omega
    simp [hk, hc]
  · by_cases hk2 : k < j + n
    · have hc : j ≤ k ∧ k < j + n := by omega
      rw [if_neg hk, if_pos hk2, if_pos hc]
      have hlt : k - j < n := by omega
      rw [List.getD_eq_getElem?_getD, List.getElem?_take, if_pos hlt,
        List.getElem?_drop, List.getD_eq_getElem?_getD]
    · have hc : ¬ (j ≤ k ∧ k < j + n) := by omega
      simp [hk, hk2, hc]

/-! Characterization of Emplace: index returned, size, capacity, and the
contents of every slot of the resulting block, on all three code paths. -/

theorem Vec.emplace_idx (v : Vec α) (pos : Nat) (x : α) :
    (v.emplace pos x).2 = pos := by
  unfold Vec.emplace
  split
  · split <;> rfl
  · rfl

theorem Vec.emplace_size (v : Vec α) (pos : Nat) (x : α) :
    (v.emplace pos x).1.size = v.size + 1 := by
  unfold Vec.emplace
  split
  · split <;> rfl
  · rfl

theorem Vec.emplace_capacity (v : Vec α) (pos : Nat) (x : α)
    (hs : v.size ≤ v.capacity) (hp : pos ≤ v.size) :
    (v.emplace pos x).1.capacity =
      if v.size < v.capacity then v.capacity
      else if v.capacity = 0 then 1 else v.capacity * 2 := by
  have hc : v.capacity = v.data.length := rfl
  unfold Vec.emplace
  by_cases hfast : v.size < v.capacity
  · rw [if_pos hfast, if_pos hfast]
    by_cases hend : pos = v.size
    · rw [if_pos hend]
      dsimp only [Vec.capacity]
      rw [writeAt_length (by simp; omega)]
    · rw [if_neg hend]
      dsimp only [Vec.capacity]
      have hp' : pos < v.size := by omega
      have h1 : (copySlots v.data (v.size - 1) 1 v.data v.size).length
          = v.data.length := copySlots_length (by omega) (by omega)
      have h2 : (copySlots (copySlots v.data (v.size - 1) 1 v.data v.size) pos
          (v.size - 1 - pos) (copySlots v.data (v.size - 1) 1 v.data v.size)
          (pos + 1)).length = v.data.length := by
        rw [copySlots_length (by rw [h1]; omega) (by rw [h1]; omega), h1]
      rw [writeAt_length (by rw [h2]; simp; omega), h2]
  · rw [if_neg hfast, if_neg hfast]
    dsimp only [Vec.capacity]
    have hsz : v.size = v.capacity := by omega
    set nc := if v.data.length = 0 then 1 else v.data.length * 2 with hncdef
    have hncge : v.size + 1 ≤ nc := by
      rw [hncdef]; split <;> omega
    have l1 : (writeAt (rawBlock α nc) pos [x]).length = nc := by
      rw [writeAt_length] <;> rw [rawBlock_length] <;> simp <;> omega
    have l2 : (copySlots v.data 0 pos (writeAt (rawBlock α nc) pos [x]) 0).length
        = nc := by
      rw [copySlots_length (by rw [l1]; omega) (by omega)]
      exact l1
    rw [copySlots_length (by rw [l2]; omega) (by omega), l2]

theorem Vec.emplace_getD (v : Vec α) (pos : Nat) (x : α)
    (hs : v.size ≤ v.capacity) (hp : pos ≤ v.size) (j : Nat) :
    ((v.emplace pos x).1.data).getD j none =
      if j < pos then v.data.getD j none
      else if j = pos then some x
      else if j ≤ v.size then v.data.getD (j - 1) none
      else if v.size < v.capacity then v.data.getD j none
      else none := by
  have hc : v.capacity = v.data.length := rfl
  unfold Vec.emplace
  by_cases hfast : v.size < v.capacity
  · rw [if_pos hfast]
    by_cases hend : pos = v.size
    · rw [if_pos hend]
      dsimp only
      rw [writeAt_getD (by simp; omega)]
      simp only [List.length_singleton]
      split_ifs <;>
        first
          | rfl
          | omega
          | (rw [show j - pos = 0 from by omega]; rfl)
          | (rw [show j - v.size = 0 from by omega]; rfl)
          | (congr 1; omega)
    · rw [if_neg hend]
      dsimp only
      have hp2 : pos < v.size := by omega
      have l1 : (copySlots v.data (v.size - 1) 1 v.data v.size).length
          = v.data.length := copySlots_length (by omega) (by omega)
      have g1 := @copySlots_getD α v.data (v.size - 1) 1 v.data v.size
        (by omega) (by omega)
      have g2 := @copySlots_getD α (copySlots v.data (v.size - 1) 1 v.data v.size)
        pos (v.size - 1 - pos) (copySlots v.data (v.size - 1) 1 v.data v.size)
        (pos + 1) (by rw [l1]; omega) (by rw [l1]; omega)
      have l2 : (copySlots (copySlots v.data (v.size - 1) 1 v.data v.size) pos
          (v.size - 1 - pos) (copySlots v.data (v.size - 1) 1 v.data v.size)
          (pos + 1)).length = v.data.length := by
        rw [copySlots_length (by rw [l1]; omega) (by rw [l1]; omega), l1]
      rw [writeAt_getD (by rw [l2]; simp; omega)]
      simp only [List.length_singleton, g2, g1]
      split_ifs <;>
        first
          | rfl
          | omega
          | (rw [show j - pos = 0 from by omega]; rfl)
          | (congr 1; omega)
  · rw [if_neg hfast]
    dsimp only
    have hsz : v.size = v.capacity := by omega
    set nc := if v.capacity = 0 then 1 else v.capacity * 2 with hncdef
    have hncge : v.size + 1 ≤ nc := by
      rw [hncdef]; split <;> omega
    have l1 : (writeAt (rawBlock α nc) pos [x]).length = nc := by
      rw [writeAt_length] <;> rw [rawBlock_length] <;> simp <;> omega
    have gw := @writeAt_getD α (rawBlock α nc) pos [x]
      (by rw [rawBlock_length]; simp; omega)
    have g2 := @copySlots_getD α v.data 0 pos (writeAt (rawBlock α nc) pos [x]) 0
      (by rw [l1]; omega) (by omega)
    have l2 : (copySlots v.data 0 pos (writeAt (rawBlock α nc) pos [x]) 0).length
        = nc := by
      rw [copySlots_length (by rw [l1]; omega) (by omega)]
      exact l1
    have g3 := @copySlots_getD α v.data pos (v.size - pos)
      (copySlots v.data 0 pos (writeAt (rawBlock α nc) pos [x]) 0) (pos + 1)
      (by rw [l2]; omega) (by omega)
    simp only [g3, g2, gw, List.length_singleton, rawBlock_getD]
    split_ifs <;>
      first
        | rfl
        | omega
        | (rw [show j - pos = 0 from by omega]; rfl)
        | (congr 1; omega)

/-! Generic access lemmas and the observable element sequence. -/

theorem take_getD (l : Buf α) (n j : Nat) :
    (l.take n).getD j none = if j < n then l.getD j none else none := by
  rw [List.getD_eq_getElem?_getD, List.getElem?_take]
  split <;> simp [List.getD_eq_getElem?_getD]

theorem drop_getD (l : Buf α) (n j : Nat) :
    (l.drop n).getD j none = l.getD (n + j) none := by
  rw [List.getD_eq_getElem?_getD, List.getElem?_drop, List.getD_eq_getElem?_getD]

theorem append_cons_getD (A : Buf α) (a : Option α) (B : Buf α) (j : Nat) :
    (A ++ a :: B).getD j none =
      if j < A.length then A.getD j none
      else if j = A.length then a
      else B.getD (j - A.length - 1) none := by
  rw [List.getD_eq_getElem?_getD, List.getElem?_append]
  by_cases h1 : j < A.length
  · simp [h1, List.getD_eq_getElem?_getD]
  · rw [if_neg h1, if_neg h1]
    by_cases h2 : j = A.length
    · subst h2
      simp
    · rw [if_neg h2]
      have h3 : j - A.length = (j - A.length - 1) + 1 := by omega
      rw [h3]
      simp [List.getD_eq_getElem?_getD]

theorem Vec.elems_length (v : Vec α) (hs : v.size ≤ v.capacity) :
    v.elems.length = v.size := by
  have hc : v.capacity = v.data.length := rfl
  rw [Vec.elems, List.length_take]
  omega

theorem Vec.elems_getD (v : Vec α) (j : Nat) :
    v.elems.getD j none = if j < v.size then v.data.getD j none else none := by
  rw [Vec.elems, take_getD]

theorem emplace_correct (v : Vec α) (pos : Nat) (x : α)
    (hs : v.size ≤ v.capacity) (hp : pos ≤ v.size) :
    (v.emplace pos x).2 = pos ∧
    (v.emplace pos x).1.size = v.size + 1 ∧
    (v.emplace pos x).1.elems = v.elems.take pos ++ some x :: v.elems.drop pos := by
  refine ⟨Vec.emplace_idx v pos x, Vec.emplace_size v pos x, ?_⟩
  have hc : v.capacity = v.data.length := rfl
  have hcap := Vec.emplace_capacity v pos x hs hp
  have hsz := Vec.emplace_size v pos x
  have hlen : v.size + 1 ≤ (v.emplace pos x).1.capacity := by
    rw [hcap]
    by_cases h1 : v.size < v.capacity
    · rw [if_pos h1]
      omega
    · rw [if_neg h1]
      split <;> omega
  have hc2 : (v.emplace pos x).1.capacity = (v.emplace pos x).1.data.length := rfl
  have hel : v.elems.length = v.size := Vec.elems_length v hs
  have htl : (v.elems.take pos).length = pos := by
    rw [List.length_take]
    omega
  apply Buf.ext_getD
  · rw [Vec.elems_length _ (by omega)]
    rw [hsz, List.length_append, List.length_cons, htl, List.length_drop, hel]
    omega
  · intro j
    rw [Vec.elems_getD, hsz, Vec.emplace_getD v pos x hs hp j]
    rw [append_cons_getD, htl, take_getD, Vec.elems_getD, drop_getD, Vec.elems_getD]
    split_ifs <;>
      first
        | rfl
        | omega
        | (congr 1; omega)

/-! Characterization of the remaining operations. -/

theorem Vec.reserve_of_le (v : Vec α) (n : Nat) (h : n ≤ v.capacity) :
    v.reserve n = v := by
  rw [Vec.reserve, if_pos h]

theorem Vec.reserve_size (v : Vec α) (n : Nat) : (v.reserve n).size = v.size := by
  rw [Vec.reserve]
  split <;> rfl

theorem Vec.reserve_capacity (v : Vec α) (n : Nat) (hs : v.size ≤ v.capacity) :
    (v.reserve n).capacity = if n ≤ v.capacity then v.capacity else n := by
  have hc : v.capacity = v.data.length := rfl
  rw [Vec.reserve]
  split
  · rfl
  · rename_i h
    show (copySlots _ 0 v.size _ 0).length = n
    rw [copySlots_length (by rw [rawBlock_length]; omega) (by omega)]
    exact rawBlock_length α n

theorem Vec.reserve_getD (v : Vec α) (n : Nat) (hs : v.size ≤ v.capacity)
    (j : Nat) :
    ((v.reserve n).data).getD j none =
      if n ≤ v.capacity then v.data.getD j none
      else if j < v.size then v.data.getD j none
      else none := by
  have hc : v.capacity = v.data.length := rfl
  rw [Vec.reserve]
  split
  · rfl
  · rename_i h
    show (copySlots _ 0 v.size _ 0).getD j none = _
    rw [copySlots_getD (by rw [rawBlock_length]; omega) (by omega)]
    simp only [rawBlock_getD]
    split_ifs <;>
      first
        | rfl
        | omega
        | (congr 1; omega)

theorem Vec.resize_size (d : α) (v : Vec α) (n : Nat) (hs : v.size ≤ v.capacity) :
    (v.resize d n).size = n := by
  rw [Vec.resize]
  split
  · rfl
  · split
    · rfl
    · show v.size = n
      omega

theorem Vec.resize_capacity (d : α) (v : Vec α) (n : Nat)
    (hs : v.size ≤ v.capacity) :
    (v.resize d n).capacity =
      if n ≤ v.capacity then v.capacity else n := by
  have hc : v.capacity = v.data.length := rfl
  rw [Vec.resize]
  by_cases h1 : n < v.size
  · rw [if_pos h1]
    show (destroyAt v.data n (v.size - n)).length = _
    rw [destroyAt_length (by omega), if_pos (by omega)]
    omega
  · rw [if_neg h1]
    by_cases h2 : n > v.size
    · rw [if_pos h2]
      dsimp only
      have hrs := Vec.reserve_size v n
      have hrc := Vec.reserve_capacity v n hs
      have hrc2 : (v.reserve n).capacity = (v.reserve n).data.length := rfl
      show (writeAt (v.reserve n).data (v.reserve n).size _).length = _
      rw [writeAt_length]
      · rw [← hrc2, hrc]
      · rw [List.length_replicate, hrs, ← hrc2, hrc]
        split <;> omega
    · rw [if_neg h2, if_pos (by omega)]

theorem Vec.resize_getD_shrink (d : α) (v : Vec α) (n : Nat)
    (hs : v.size ≤ v.capacity) (h : n < v.size) (j : Nat) :
    ((v.resize d n).data).getD j none =
      if n ≤ j ∧ j < v.size then none else v.data.getD j none := by
  have hc : v.capacity = v.data.length := rfl
  rw [Vec.resize, if_pos h]
  show (destroyAt v.data n (v.size - n)).getD j none = _
  rw [destroyAt_getD (by omega)]
  split_ifs <;> first | rfl | omega

theorem Vec.resize_getD_grow (d : α) (v : Vec α) (n : Nat)
    (hs : v.size ≤ v.capacity) (h : v.size < n) (j : Nat) :
    ((v.resize d n).data).getD j none =
      if j < v.size then v.data.getD j none
      else if j < n then some d
      else if n ≤ v.capacity then v.data.getD j none
      else none := by
  have hc : v.capacity = v.data.length := rfl
  rw [Vec.resize, if_neg (by omega), if_pos h]
  dsimp only
  have hrs := Vec.reserve_size v n
  have hrc : (v.reserve n).data.length = if n ≤ v.capacity then v.capacity else n :=
    Vec.reserve_capacity v n hs
  rw [writeAt_getD (by rw [List.length_replicate, hrs, hrc]; split <;> omega)]
  simp only [List.length_replicate, hrs, Vec.reserve_getD v n hs,
    List.getElem?_replicate]
  split_ifs <;> first | rfl | omega

theorem Vec.resize_of_eq (d : α) (v : Vec α) (n : Nat) (h : n = v.size) :
    v.resize d n = v := by
  rw [Vec.resize, if_neg (by omega), if_neg (by omega)]

theorem Vec.erase_idx (v : Vec α) (pos : Nat) : (v.erase pos).2 = pos := rfl

theorem Vec.erase_size (v : Vec α) (pos : Nat) :
    (v.erase pos).1.size = v.size - 1 := rfl

theorem Vec.erase_capacity (v : Vec α) (pos : Nat)
    (hs : v.size ≤ v.capacity) (hp : pos < v.size) :
    (v.erase pos).1.capacity = v.capacity := by
  have hc : v.capacity = v.data.length := rfl
  show (destroyAt (copySlots v.data (pos + 1) (v.size - (pos + 1)) v.data pos)
    (v.size - 1) 1).length = v.capacity
  have l1 : (copySlots v.data (pos + 1) (v.size - (pos + 1)) v.data pos).length
      = v.data.length := copySlots_length (by omega) (by omega)
  rw [destroyAt_length (by rw [l1]; omega), l1]
  omega

theorem Vec.erase_getD (v : Vec α) (pos : Nat)
    (hs : v.size ≤ v.capacity) (hp : pos < v.size) (j : Nat) :
    ((v.erase pos).1.data).getD j none =
      if j < pos then v.data.getD j none
      else if j < v.size - 1 then v.data.getD (j + 1) none
      else if j = v.size - 1 then none
      else v.data.getD j none := by
  have hc : v.capacity = v.data.length := rfl
  show (destroyAt (copySlots v.data (pos + 1) (v.size - (pos + 1)) v.data pos)
    (v.size - 1) 1).getD j none = _
  have l1 : (copySlots v.data (pos + 1) (v.size - (pos + 1)) v.data pos).length
      = v.data.length := copySlots_length (by omega) (by omega)
  rw [destroyAt_getD (by rw [l1]; omega)]
  rw [copySlots_getD (by omega) (by omega)]
  split_ifs <;>
    first
      | rfl
      | omega
      | (congr 1; omega)

theorem Vec.popBack_size (v : Vec α) : (v.popBack).size = v.size - 1 := rfl

theorem Vec.popBack_capacity (v : Vec α) (hs : v.size ≤ v.capacity)
    (hn : 0 < v.size) : (v.popBack).capacity = v.capacity := by
  have hc : v.capacity = v.data.length := rfl
  show (destroyAt v.data (v.size - 1) 1).length = v.capacity
  rw [destroyAt_length (by omega)]
  omega

theorem Vec.popBack_getD (v : Vec α) (hs : v.size ≤ v.capacity)
    (hn : 0 < v.size) (j : Nat) :
    ((v.popBack).data).getD j none =
      if j = v.size - 1 then none else v.data.getD j none := by
  have hc : v.capacity = v.data.length := rfl
  show (destroyAt v.data (v.size - 1) 1).getD j none = _
  rw [destroyAt_getD (by omega)]
  split_ifs <;> first | rfl | omega

theorem Vec.ofSize_size (d : α) (n : Nat) : (Vec.ofSize d n).size = n := rfl

theorem Vec.ofSize_capacity (d : α) (n : Nat) : (Vec.ofSize d n).capacity = n := by
  show (writeAt (rawBlock α n) 0 (List.replicate n d)).length = n
  rw [writeAt_length (by rw [rawBlock_length, List.length_replicate]; omega)]
  exact rawBlock_length α n

theorem Vec.ofSize_getD (d : α) (n j : Nat) :
    ((Vec.ofSize d n).data).getD j none = if j < n then some d else none := by
  show (writeAt (rawBlock α n) 0 (List.replicate n d)).getD j none = _
  rw [writeAt_getD (by rw [rawBlock_length, List.length_replicate]; omega)]
  simp only [List.length_replicate, rawBlock_getD, List.getElem?_replicate]
  split_ifs <;> first | rfl | omega

theorem Vec.copy_size (other : Vec α) : (Vec.copy other).size = other.size := rfl

theorem Vec.copy_capacity (other : Vec α) (hs : other.size ≤ other.capacity) :
    (Vec.copy other).capacity = other.size := by
  have hc : other.capacity = other.data.length := rfl
  show (copySlots other.data 0 other.size (rawBlock α other.size) 0).length
    = other.size
  rw [copySlots_length (by rw [rawBlock_length]; omega) (by omega)]
  exact rawBlock_length α other.size

theorem Vec.copy_getD (other : Vec α) (hs : other.size ≤ other.capacity)
    (j : Nat) :
    ((Vec.copy other).data).getD j none =
      if j < other.size then other.data.getD j none else none := by
  have hc : other.capacity = other.data.length := rfl
  show (copySlots other.data 0 other.size (rawBlock α other.size) 0).getD j none
    = _
  rw [copySlots_getD (by rw [rawBlock_length]; omega) (by omega)]
  simp only [rawBlock_getD]
  split_ifs <;>
    first
      | rfl
      | omega
      | (congr 1; omega)

theorem Vec.copyAssign_size (self rhs : Vec α) :
    (Vec.copyAssign false self rhs).size = rhs.size := by
  rw [Vec.copyAssign]
  split
  · simp at *
  · split
    · rfl
    · split <;> rfl

theorem Vec.copyAssign_capacity (self rhs : Vec α)
    (hss : self.size ≤ self.capacity) (hrs : rhs.size ≤ rhs.capacity) :
    (Vec.copyAssign false self rhs).capacity =
      if self.capacity < rhs.size then rhs.size else self.capacity := by
  have hc1 : self.capacity = self.data.length := rfl
  have hc2 : rhs.capacity = rhs.data.length := rfl
  rw [Vec.copyAssign, if_neg (by simp)]
  by_cases h1 : rhs.size > self.capacity
  · rw [if_pos h1, if_pos h1]
    exact Vec.copy_capacity rhs hrs
  · rw [if_neg h1, if_neg (show ¬ self.capacity < rhs.size from by omega)]
    by_cases h2 : self.size > rhs.size
    · rw [if_pos h2]
      show (destroyAt (copySlots rhs.data 0 rhs.size self.data 0)
        rhs.size (self.size - rhs.size)).length = self.capacity
      have l1 : (copySlots rhs.data 0 rhs.size self.data 0).length
          = self.data.length := copySlots_length (by omega) (by omega)
      rw [destroyAt_length (by rw [l1]; omega), l1]
      omega
    · rw [if_neg h2]
      show (copySlots rhs.data self.size (rhs.size - self.size)
        (copySlots rhs.data 0 self.size self.data 0) self.size).length
        = self.capacity
      have l1 : (copySlots rhs.data 0 self.size self.data 0).length
          = self.data.length := copySlots_length (by omega) (by omega)
      rw [copySlots_length (by rw [l1]; omega) (by omega), l1]
      omega

theorem Vec.copyAssign_getD (self rhs : Vec α)
    (hss : self.size ≤ self.capacity) (hrs : rhs.size ≤ rhs.capacity) (j : Nat) :
    ((Vec.copyAssign false self rhs).data).getD j none =
      if j < rhs.size then rhs.data.getD j none
      else if self.capacity < rhs.size then none
      else if j < self.size then none
      else self.data.getD j none := by
  have hc1 : self.capacity = self.data.length := rfl
  have hc2 : rhs.capacity = rhs.data.length := rfl
  rw [Vec.copyAssign, if_neg (by simp)]
  by_cases h1 : rhs.size > self.capacity
  · rw [if_pos h1]
    rw [Vec.copy_getD rhs hrs]
    split_ifs <;> first | rfl | omega
  · rw [if_neg h1]
    by_cases h2 : self.size > rhs.size
    · rw [if_pos h2]
      show (destroyAt (copySlots rhs.data 0 rhs.size self.data 0)
        rhs.size (self.size - rhs.size)).getD j none = _
      have l1 : (copySlots rhs.data 0 rhs.size self.data 0).length
          = self.data.length := copySlots_length (by omega) (by omega)
      rw [destroyAt_getD (by rw [l1]; omega)]
      rw [copySlots_getD (by omega) (by omega)]
      split_ifs <;>
        first
          | rfl
          | omega
          | (congr 1; omega)
    · rw [if_neg h2]
      show (copySlots rhs.data self.size (rhs.size - self.size)
        (copySlots rhs.data 0 self.size self.data 0) self.size).getD j none = _
      have l1 : (copySlots rhs.data 0 self.size self.data 0).length
          = self.data.length := copySlots_length (by omega) (by omega)
      rw [copySlots_getD (by rw [l1]; omega) (by omega)]
      rw [copySlots_getD (by omega) (by omega)]
      split_ifs <;>
        first
          | rfl
          | omega
          | (congr 1; omega)

/-! Preservation of the data-model invariant. -/

theorem wf_empty (α : Type) : (Vec.empty α).WF := by
  refine ⟨Nat.le_refl 0, ?_, ?_⟩ <;> intro i h1 <;> simp [Vec.empty, Vec.capacity] at h1

theorem wf_ofSize (d : α) (n : Nat) : (Vec.ofSize d n).WF := by
  have hsz : (Vec.ofSize d n).size = n := rfl
  have hcap := Vec.ofSize_capacity d n
  refine ⟨by omega, ?_, ?_⟩
  · intro i hi
    rw [hsz] at hi
    rw [Vec.ofSize_getD, if_pos hi]
    rfl
  · intro i h1 h2
    rw [hsz] at h2
    rw [hcap] at h1
    rw [Vec.ofSize_getD, if_neg (by omega)]

theorem wf_copy (other : Vec α) (h : other.WF) : (Vec.copy other).WF := by
  obtain ⟨hs, hl, hr⟩ := h
  have hsz : (Vec.copy other).size = other.size := rfl
  have hcap := Vec.copy_capacity other hs
  refine ⟨by omega, ?_, ?_⟩
  · intro i hi
    rw [hsz] at hi
    rw [Vec.copy_getD other hs, if_pos hi]
    exact hl i hi
  · intro i h1 h2
    rw [hsz] at h2
    rw [hcap] at h1
    rw [Vec.copy_getD other hs, if_neg (by omega)]

theorem wf_emplace (v : Vec α) (pos : Nat) (x : α) (h : v.WF)
    (hp : pos ≤ v.size) : (v.emplace pos x).1.WF := by
  obtain ⟨hs, hl, hr⟩ := h
  have hcap := Vec.emplace_capacity v pos x hs hp
  have hsz := Vec.emplace_size v pos x
  have hlen : v.size + 1 ≤ (v.emplace pos x).1.capacity := by
    rw [hcap]
    by_cases h1 : v.size < v.capacity
    · rw [if_pos h1]
      omega
    · rw [if_neg h1]
      split <;> omega
  refine ⟨by omega, ?_, ?_⟩
  · intro i hi
    rw [Vec.emplace_getD v pos x hs hp i]
    split_ifs with c1 c2 c3 c4
    · exact hl i (by omega)
    · rfl
    · exact hl (i - 1) (by omega)
    · omega
    · omega
  · intro i h1 h2
    rw [Vec.emplace_getD v pos x hs hp i]
    rw [if_neg (by omega), if_neg (by omega), if_neg (by omega)]
    split_ifs with c4
    · refine hr i ?_ (by omega)
      rw [hcap] at h1
      rw [if_pos c4] at h1
      exact h1
    · rfl

theorem wf_copyAssign (self rhs : Vec α) (h1 : self.WF) (h2 : rhs.WF) :
    (Vec.copyAssign false self rhs).WF := by
  obtain ⟨hs1, hl1, hr1⟩ := h1
  obtain ⟨hs2, hl2, hr2⟩ := h2
  have hcap := Vec.copyAssign_capacity self rhs hs1 hs2
  have hsz := Vec.copyAssign_size self rhs
  refine ⟨?_, ?_, ?_⟩
  · rw [hcap, hsz]
    split <;> omega
  · intro i hi
    rw [hsz] at hi
    rw [Vec.copyAssign_getD self rhs hs1 hs2, if_pos hi]
    exact hl2 i hi
  · intro i hic hin
    rw [hsz] at hin
    rw [hcap] at hic
    rw [Vec.copyAssign_getD self rhs hs1 hs2, if_neg (by omega)]
    split_ifs with c1 c2
    · rfl
    · rfl
    · refine hr1 i ?_ (by omega)
      rw [if_neg (by omega)] at hic
      exact hic

theorem wf_reserve (v : Vec α) (n : Nat) (h : v.WF) : (v.reserve n).WF := by
  obtain ⟨hs, hl, hr⟩ := h
  have hcap := Vec.reserve_capacity v n hs
  have hsz := Vec.reserve_size v n
  refine ⟨?_, ?_, ?_⟩
  · rw [hcap, hsz]
    split <;> omega
  · intro i hi
    rw [hsz] at hi
    rw [Vec.reserve_getD v n hs]
    split_ifs <;> first | exact hl i hi | omega
  · intro i hic hin
    rw [hsz] at hin
    rw [hcap] at hic
    rw [Vec.reserve_getD v n hs]
    split_ifs with c1 c2
    · refine hr i ?_ hin
      rw [if_pos c1] at hic
      exact hic
    · omega
    · rfl

theorem wf_resize (d : α) (v : Vec α) (n : Nat) (h : v.WF) :
    (v.resize d n).WF := by
  obtain ⟨hs, hl, hr⟩ := h
  have hcap := Vec.resize_capacity d v n hs
  have hsz := Vec.resize_size d v n hs
  rcases Nat.lt_trichotomy n v.size with hlt | heq | hgt
  · refine ⟨?_, ?_, ?_⟩
    · rw [hcap, hsz, if_pos (by omega)]
      omega
    · intro i hi
      rw [hsz] at hi
      rw [Vec.resize_getD_shrink d v n hs hlt, if_neg (by omega)]
      exact hl i (by omega)
    · intro i hic hin
      rw [hsz] at hin
      rw [hcap, if_pos (by omega)] at hic
      rw [Vec.resize_getD_shrink d v n hs hlt]
      split_ifs with c1
      · rfl
      · exact hr i hic (by omega)
  · rw [Vec.resize_of_eq d v n heq]
    exact ⟨hs, hl, hr⟩
  · refine ⟨?_, ?_, ?_⟩
    · rw [hcap, hsz]
      split <;> omega
    · intro i hi
      rw [hsz] at hi
      rw [Vec.resize_getD_grow d v n hs hgt]
      split_ifs <;> first | rfl | omega | exact hl i (by omega)
    · intro i hic hin
      rw [hsz] at hin
      rw [hcap] at hic
      rw [Vec.resize_getD_grow d v n hs hgt, if_neg (by omega), if_neg (by omega)]
      split_ifs with c1
      · refine hr i ?_ (by omega)
        rw [if_pos c1] at hic
        exact hic
      · rfl

theorem wf_erase (v : Vec α) (pos : Nat) (h : v.WF) (hp : pos < v.size) :
    (v.erase pos).1.WF := by
  obtain ⟨hs, hl, hr⟩ := h
  have hcap := Vec.erase_capacity v pos hs hp
  have hsz := Vec.erase_size v pos
  refine ⟨by omega, ?_, ?_⟩
  · intro i hi
    rw [hsz] at hi
    rw [Vec.erase_getD v pos hs hp]
    split_ifs <;>
      first
        | omega
        | exact hl i (by omega)
        | exact hl (i + 1) (by omega)
  · intro i hic hin
    rw [hsz] at hin
    rw [hcap] at hic
    rw [Vec.erase_getD v pos hs hp, if_neg (by omega), if_neg (by omega)]
    split_ifs with c1
    · rfl
    · exact hr i hic (by omega)

theorem wf_popBack (v : Vec α) (h : v.WF) (hn : 0 < v.size) :
    (v.popBack).WF := by
  obtain ⟨hs, hl, hr⟩ := h
  have hcap := Vec.popBack_capacity v hs hn
  have hsz := Vec.popBack_size v
  refine ⟨by omega, ?_, ?_⟩
  · intro i hi
    rw [hsz] at hi
    rw [Vec.popBack_getD v hs hn, if_neg (by omega)]
    exact hl i (by omega)
  · intro i hic hin
    rw [hsz] at hin
    rw [hcap] at hic
    rw [Vec.popBack_getD v hs hn]
    split_ifs with c1
    · rfl
    · exact hr i hic (by omega)

theorem wf_pushBack (v : Vec α) (x : α) (h : v.WF) : (v.pushBack x).WF :=
  wf_emplace v v.size x h (Nat.le_refl _)

/-- Destructor effect: slot `j` is destroyed exactly when `j < size`; every
other slot of the block is untouched. -/
theorem Vec.destruct_getD (v : Vec α) (hs : v.size ≤ v.capacity) (j : Nat) :
    (v.destruct).getD j none =
      if j < v.size then none else v.data.getD j none := by
  have hc : v.capacity = v.data.length := rfl
  rw [Vec.destruct, destroyAt_getD (by omega)]
  split_ifs <;> first | rfl | omega

/-! Element-sequence versions of the characterizations. -/

theorem Vec.copy_elems (other : Vec α) (hs : other.size ≤ other.capacity) :
    (Vec.copy other).elems = other.elems := by
  have hc : other.capacity = other.data.length := rfl
  have hsz : (Vec.copy other).size = other.size := rfl
  have hcap := Vec.copy_capacity other hs
  apply Buf.ext_getD
  · rw [Vec.elems_length _ (by omega), Vec.elems_length _ hs, hsz]
  · intro j
    rw [Vec.elems_getD, Vec.elems_getD, hsz, Vec.copy_getD other hs]
    split_ifs <;> first | rfl | omega

theorem Vec.copyAssign_elems (self rhs : Vec α)
    (hss : self.size ≤ self.capacity) (hrs : rhs.size ≤ rhs.capacity) :
    (Vec.copyAssign false self rhs).elems = rhs.elems := by
  have hc1 : self.capacity = self.data.length := rfl
  have hc2 : rhs.capacity = rhs.data.length := rfl
  have hsz := Vec.copyAssign_size self rhs
  have hcap := Vec.copyAssign_capacity self rhs hss hrs
  have hsc : (Vec.copyAssign false self rhs).size
      ≤ (Vec.copyAssign false self rhs).capacity := by
    rw [hsz, hcap]
    split <;> omega
  apply Buf.ext_getD
  · rw [Vec.elems_length _ hsc, Vec.elems_length _ hrs, hsz]
  · intro j
    rw [Vec.elems_getD, Vec.elems_getD, hsz, Vec.copyAssign_getD self rhs hss hrs]
    split_ifs <;> first | rfl | omega

theorem Vec.reserve_elems (v : Vec α) (n : Nat) (hs : v.size ≤ v.capacity) :
    (v.reserve n).elems = v.elems := by
  have hc : v.capacity = v.data.length := rfl
  have hsz := Vec.reserve_size v n
  have hcap := Vec.reserve_capacity v n hs
  have hsc : (v.reserve n).size ≤ (v.reserve n).capacity := by
    rw [hsz, hcap]
    split <;> omega
  apply Buf.ext_getD
  · rw [Vec.elems_length _ hsc, Vec.elems_length _ hs, hsz]
  · intro j
    rw [Vec.elems_getD, Vec.elems_getD, hsz, Vec.reserve_getD v n hs]
    split_ifs <;> first | rfl | omega

theorem Vec.resize_elems_shrink (d : α) (v : Vec α) (n : Nat)
    (hs : v.size ≤ v.capacity) (h : n < v.size) :
    (v.resize d n).elems = v.elems.take n := by
  have hc : v.capacity = v.data.length := rfl
  have hsz := Vec.resize_size d v n hs
  have hcap := Vec.resize_capacity d v n hs
  have hsc : (v.resize d n).size ≤ (v.resize d n).capacity := by
    rw [hsz, hcap]
    split <;> omega
  apply Buf.ext_getD
  · rw [Vec.elems_length _ hsc, hsz, List.length_take, Vec.elems_length _ hs]
    omega
  · intro j
    rw [Vec.elems_getD, take_getD, Vec.elems_getD, hsz,
      Vec.resize_getD_shrink d v n hs h]
    split_ifs <;> first | rfl | omega

theorem append_getD (A B : Buf α) (j : Nat) :
    (A ++ B).getD j none =
      if j < A.length then A.getD j none else B.getD (j - A.length) none := by
  rw [List.getD_eq_getElem?_getD, List.getElem?_append]
  split_ifs <;> rw [List.getD_eq_getElem?_getD]

theorem replicate_getD (n : Nat) (a : Option α) (j : Nat) :
    (List.replicate n a).getD j none = if j < n then a else none := by
  rw [List.getD_eq_getElem?_getD, List.getElem?_replicate]
  split_ifs <;> rfl

theorem Vec.resize_elems_grow (d : α) (v : Vec α) (n : Nat)
    (hs : v.size ≤ v.capacity) (h : v.size < n) :
    (v.resize d n).elems = v.elems ++ List.replicate (n - v.size) (some d) := by
  have hc : v.capacity = v.data.length := rfl
  have hsz := Vec.resize_size d v n hs
  have hcap := Vec.resize_capacity d v n hs
  have hsc : (v.resize d n).size ≤ (v.resize d n).capacity := by
    rw [hsz, hcap]
    split <;> omega
  have hel : v.elems.length = v.size := Vec.elems_length v hs
  apply Buf.ext_getD
  · rw [Vec.elems_length _ hsc, hsz, List.length_append, List.length_replicate,
      hel]
    omega
  · intro j
    rw [Vec.elems_getD, hsz, Vec.resize_getD_grow d v n hs h,
      append_getD, hel, Vec.elems_getD, replicate_getD]
    split_ifs <;> first | rfl | omega

theorem Vec.erase_elems (v : Vec α) (pos : Nat)
    (hs : v.size ≤ v.capacity) (hp : pos < v.size) :
    (v.erase pos).1.elems = v.elems.take pos ++ v.elems.drop (pos + 1) := by
  have hc : v.capacity = v.data.length := rfl
  have hsz := Vec.erase_size v pos
  have hcap := Vec.erase_capacity v pos hs hp
  have hel : v.elems.length = v.size := Vec.elems_length v hs
  have htl : (v.elems.take pos).length = pos := by
    rw [List.length_take]
    omega
  apply Buf.ext_getD
  · rw [Vec.elems_length _ (by rw [hsz, hcap]; omega), hsz, List.length_append,
      htl, List.length_drop, hel]
    omega
  · intro j
    rw [Vec.elems_getD, hsz, Vec.erase_getD v pos hs hp, append_getD, htl,
      take_getD, drop_getD]
    simp only [Vec.elems_getD]
    split_ifs <;>
      first
        | rfl
        | omega
        | (congr 1; omega)

/-! PushBack growth: the capacity stays the least power of two that covers the
size (or 0/1 at the start), which bounds it by any power of two at least the
number of pushes. -/

theorem Vec.pushBack_size (v : Vec α) (x : α) :
    (v.pushBack x).size = v.size + 1 :=
  Vec.emplace_size v v.size x

theorem Vec.pushBack_capacity (v : Vec α) (x : α) (hs : v.size ≤ v.capacity) :
    (v.pushBack x).capacity =
      if v.size < v.capacity then v.capacity
      else if v.capacity = 0 then 1 else v.capacity * 2 :=
  Vec.emplace_capacity v v.size x hs (Nat.le_refl _)

theorem goodCap_empty (α : Type) : GoodCap (Vec.empty α) := Or.inl ⟨rfl, rfl⟩

theorem goodCap_pushBack (v : Vec α) (x : α) (h : GoodCap v) :
    GoodCap (v.pushBack x) := by
  have hsz := Vec.pushBack_size v x
  rcases h with ⟨h1, h2⟩ | ⟨k, hk, hle, hlt⟩
  · have hs : v.size ≤ v.capacity := by omega
    have hcap := Vec.pushBack_capacity v x hs
    rw [if_neg (by omega), if_pos (by omega)] at hcap
    right
    exact ⟨0, by rw [hcap]; rfl, by omega, by omega⟩
  · have h2k : 0 < 2 ^ k := Nat.pos_pow_of_pos k (by omega)
    have hcap := Vec.pushBack_capacity v x hle
    by_cases hful : v.size < v.capacity
    · rw [if_pos hful] at hcap
      right
      exact ⟨k, by rw [hcap]; exact hk, by omega, by omega⟩
    · rw [if_neg hful, if_neg (by omega)] at hcap
      right
      refine ⟨k + 1, ?_, by omega, by omega⟩
      rw [hcap, hk, Nat.pow_succ]

theorem Vec.pushList_size (v : Vec α) (xs : List α) :
    (v.pushList xs).size = v.size + xs.length := by
  induction xs generalizing v with
  | nil => rfl
  | cons y ys ih =>
    show ((v.pushBack y).pushList ys).size = _
    rw [ih, Vec.pushBack_size, List.length_cons]
    omega

theorem goodCap_pushList (v : Vec α) (xs : List α) (h : GoodCap v) :
    GoodCap (v.pushList xs) := by
  induction xs generalizing v with
  | nil => exact h
  | cons y ys ih =>
    show GoodCap ((v.pushBack y).pushList ys)
    exact ih _ (goodCap_pushBack v y h)

theorem goodCap_capacity_le_pow (v : Vec α) (h : GoodCap v) (m : Nat)
    (hm : v.size ≤ 2 ^ m) : v.capacity ≤ 2 ^ m := by
  rcases h with ⟨h1, h2⟩ | ⟨k, hk, hle, hlt⟩
  · omega
  · by_cases hkm : k ≤ m
    · rw [hk]
      exact Nat.pow_le_pow_right (by omega) hkm
    · exfalso
      have hp : 2 ^ (m + 1) ≤ 2 ^ k := Nat.pow_le_pow_right (by omega) (by omega)
      have he : 2 ^ (m + 1) = 2 ^ m * 2 := Nat.pow_succ 2 m
      omega

/-! Reduction lemmas for the fallible copy-assignment paths. -/

theorem Vec.copyAssignF_inplace (self rhs : Vec α) (budget : Nat)
    (h : rhs.size ≤ self.capacity) :
    Vec.copyAssignF false self rhs budget =
      (Except.ok (), Vec.copyAssign false self rhs) := by
  rw [Vec.copyAssignF, if_neg (by simp), if_neg (by omega)]

theorem Vec.copyF_ok (other : Vec α) (budget : Nat) (h : other.size ≤ budget) :
    Vec.copyF other budget = (Except.ok (Vec.copy other), budget - other.size) := by
  rw [Vec.copyF, fCopySlots, if_pos h]
  rfl

theorem Vec.copyF_err (other : Vec α) (budget : Nat) (h : budget < other.size) :
    Vec.copyF other budget = (Except.error (), 0) := by
  rw [Vec.copyF, fCopySlots, if_neg (by omega)]

theorem Vec.copyAssignF_temp_ok (self rhs : Vec α) (budget : Nat)
    (hcap : self.capacity < rhs.size) (hb : rhs.size ≤ budget) :
    Vec.copyAssignF false self rhs budget = (Except.ok (), Vec.copy rhs) := by
  rw [Vec.copyAssignF, if_neg (by simp), if_pos (by omega), Vec.copyF_ok rhs budget hb]

theorem Vec.copyAssignF_temp_err (self rhs : Vec α) (budget : Nat)
    (hcap : self.capacity < rhs.size) (hb : budget < rhs.size) :
    Vec.copyAssignF false self rhs budget = (Except.error (), self) := by
  rw [Vec.copyAssignF, if_neg (by simp), if_pos (by omega), Vec.copyF_err rhs budget hb]

/-! Claim theorems. -/

/-- C1: the claim says a failing prefix/suffix transfer during a reallocating
Emplace must roll everything back and re-signal the failure.  The code does
not: both catch handlers (vector.h lines 215-217 and 222-224) swallow the
exception, after which the corrupt new block is unconditionally adopted and
`size_` incremented.  Evaluated at the concrete failing input — a well-formed
vector of one element with size = capacity = 1, `PushBack` of a new value
where the element copy constructor throws while transferring the one-element
prefix (budget 0) — the call returns normally with size 2 over a block whose
slots are all uninitialized: the invariant is destroyed, nothing is rolled
back, and no failure reaches the caller. -/
theorem C1_realloc_failure_swallowed :
    (⟨[some 7], 1⟩ : Vec Nat).WF ∧
    (⟨[some 7], 1⟩ : Vec Nat).size = (⟨[some 7], 1⟩ : Vec Nat).capacity ∧
    (Vec.emplaceReallocF (⟨[some 7], 1⟩ : Vec Nat) 1 9 0).1.size = 2 ∧
    (Vec.emplaceReallocF (⟨[some 7], 1⟩ : Vec Nat) 1 9 0).1.data = [none, none] ∧
    ¬ (Vec.emplaceReallocF (⟨[some 7], 1⟩ : Vec Nat) 1 9 0).1.WF := by
  decide

/-- C2: for every well-formed vector and every valid position
`pos ∈ [0, size]`, Emplace returns the position of the new element,
increments the size by one, and the live element sequence becomes the old one
with the new value inserted at `pos` — all other elements keep their values
and relative order. -/
theorem C2_emplace_inserts_at_position (v : Vec α) (pos : Nat) (x : α)
    (hs : v.size ≤ v.capacity) (hp : pos ≤ v.size) :
    (v.emplace pos x).2 = pos ∧
    (v.emplace pos x).1.size = v.size + 1 ∧
    (v.emplace pos x).1.elems = v.elems.take pos ++ some x :: v.elems.drop pos :=
  emplace_correct v pos x hs hp

/-- C2 witness: on `[1,2,3]` (size = capacity = 3), `Insert(begin+1, 99)`
gives `[1,99,2,3]` with size 4. -/
theorem C2_emplace_inserts_at_position_witness :
    (((⟨[some 1, some 2, some 3], 3⟩ : Vec Nat).emplace 1 99).2 = 1 ∧
     ((⟨[some 1, some 2, some 3], 3⟩ : Vec Nat).emplace 1 99).1.size
       = (⟨[some 1, some 2, some 3], 3⟩ : Vec Nat).size + 1 ∧
     ((⟨[some 1, some 2, some 3], 3⟩ : Vec Nat).emplace 1 99).1.elems
       = (⟨[some 1, some 2, some 3], 3⟩ : Vec Nat).elems.take 1
         ++ some 99 :: (⟨[some 1, some 2, some 3], 3⟩ : Vec Nat).elems.drop 1) ∧
    ((⟨[some 1, some 2, some 3], 3⟩ : Vec Nat).emplace 1 99).1.elems
      = [some 1, some 99, some 2, some 3] :=
  ⟨C2_emplace_inserts_at_position ⟨[some 1, some 2, some 3], 3⟩ 1 99
      (by decide) (by decide),
   by decide⟩

/-- C3: the data-model invariant — slots `[0, size)` live, slots
`[size, capacity)` raw, `size ≤ capacity` (`Vec.WF`) — is preserved by every
public operation, and destruction destroys exactly the first `size` slots:
every slot below `size` is destroyed, every slot from `size` on is untouched,
and on a well-formed vector no live element survives destruction. -/
theorem C3_invariant_preserved (d x : α) (v w : Vec α) (n pos1 pos2 : Nat)
    (hv : v.WF) (hw : w.WF) (hp1 : pos1 ≤ v.size) :
    (Vec.empty α).WF ∧
    (Vec.ofSize d n).WF ∧
    (Vec.copy v).WF ∧
    (Vec.moveCtor v).1.WF ∧
    (Vec.moveCtor v).2.WF ∧
    (Vec.copyAssign false v w).WF ∧
    (Vec.copyAssign true v w).WF ∧
    (Vec.moveAssign false v w).1.WF ∧
    (Vec.moveAssign false v w).2.WF ∧
    (Vec.moveAssign true v w).1.WF ∧
    (Vec.moveAssign true v w).2.WF ∧
    (v.reserve n).WF ∧
    (v.resize d n).WF ∧
    (v.emplace pos1 x).1.WF ∧
    (v.pushBack x).WF ∧
    (pos2 < v.size → (v.erase pos2).1.WF) ∧
    (0 < v.size → (v.popBack).WF) ∧
    (v.swap w).1.WF ∧
    (v.swap w).2.WF ∧
    (∀ j, j < v.size → (v.destruct).getD j none = none) ∧
    (∀ j, v.size ≤ j → (v.destruct).getD j none = v.data.getD j none) ∧
    (∀ j, (v.destruct).getD j none = none) := by
  have hc : v.capacity = v.data.length := rfl
  refine ⟨wf_empty α, wf_ofSize d n, wf_copy v hv, hv, wf_empty α,
    wf_copyAssign v w hv hw, hv, hw, hv, hv, hw,
    wf_reserve v n hv, wf_resize d v n hv, wf_emplace v pos1 x hv hp1,
    wf_pushBack v x hv, fun hp2 => wf_erase v pos2 hv hp2,
    fun hn => wf_popBack v hv hn, hw, hv, ?_, ?_, ?_⟩
  · intro j hj
    rw [Vec.destruct_getD v hv.1 j, if_pos hj]
  · intro j hj
    rw [Vec.destruct_getD v hv.1 j, if_neg (by omega)]
  · intro j
    rw [Vec.destruct_getD v hv.1 j]
    split_ifs with c
    · rfl
    · by_cases hj : j < v.capacity
      · exact hv.2.2 j hj (by omega)
      · exact getD_of_length_le (by omega)

/-- C3 witness: the invariant facts at a concrete well-formed non-empty
vector, and at the empty vector (where PushBack takes the capacity-0 growth
branch). -/
theorem C3_invariant_preserved_witness :
    ((⟨[some 1, some 2, none], 2⟩ : Vec Nat).emplace 1 9).1.WF ∧
    ((⟨[some 1, some 2, none], 2⟩ : Vec Nat).erase 0).1.WF ∧
    (∀ j, ((⟨[some 1, some 2, none], 2⟩ : Vec Nat).destruct).getD j none
      = none) ∧
    ((Vec.empty Nat).pushBack 7).WF ∧
    ((Vec.empty Nat).reserve 4).WF ∧
    ((Vec.empty Nat).resize 0 4).WF ∧
    (Vec.copyAssign false (Vec.empty Nat) ⟨[some 5], 1⟩).WF := by
  have h := C3_invariant_preserved 0 9 (⟨[some 1, some 2, none], 2⟩ : Vec Nat)
    (⟨[some 5], 1⟩ : Vec Nat) 4 1 0 (by decide) (by decide) (by decide)
  obtain ⟨-, -, -, -, -, -, -, -, -, -, -, -, -, h14, -, h16, -, -, -, -, -,
    h22⟩ := h
  have he := C3_invariant_preserved 0 7 (Vec.empty Nat)
    (⟨[some 5], 1⟩ : Vec Nat) 4 0 0 (by decide) (by decide) (by decide)
  obtain ⟨-, -, -, -, -, he6, -, -, -, -, -, he12, he13, -, he15, -, -, -, -,
    -, -, -⟩ := he
  exact ⟨h14, h16 (by decide), h22, he15, he12, he13, he6⟩

/-- C4: copy assignment between distinct vectors.  If the right-hand size fits
in the left-hand capacity the transfer is done in place (prefix overwritten by
assignment, surplus destroyed or missing suffix copy-constructed per index)
and the result holds the right-hand size and element values with the
left-hand capacity.  If the right-hand size exceeds the capacity, a full
temporary copy is built first and swapped in, so the result is exactly that
copy; if building the temporary fails (element copy budget exhausted), the
exception propagates and the left-hand side is returned completely
unmodified.  The right-hand side is only ever read, never written, on every
path. -/
theorem C4_copy_assignment (a b : Vec α) (budget : Nat)
    (ha : a.size ≤ a.capacity) (hb : b.size ≤ b.capacity) :
    (b.size ≤ a.capacity →
       Vec.copyAssignF false a b budget =
         (Except.ok (), Vec.copyAssign false a b) ∧
       (Vec.copyAssign false a b).size = b.size ∧
       (Vec.copyAssign false a b).elems = b.elems ∧
       (Vec.copyAssign false a b).capacity = a.capacity) ∧
    (a.capacity < b.size → b.size ≤ budget →
       Vec.copyAssignF false a b budget = (Except.ok (), Vec.copy b) ∧
       (Vec.copy b).size = b.size ∧
       (Vec.copy b).elems = b.elems) ∧
    (a.capacity < b.size → budget < b.size →
       Vec.copyAssignF false a b budget = (Except.error (), a)) := by
  refine ⟨fun h => ⟨Vec.copyAssignF_inplace a b budget h,
      Vec.copyAssign_size a b, Vec.copyAssign_elems a b ha hb, ?_⟩,
    fun h1 h2 => ⟨Vec.copyAssignF_temp_ok a b budget h1 h2,
      Vec.copy_size b, Vec.copy_elems b hb⟩,
    fun h1 h2 => Vec.copyAssignF_temp_err a b budget h1 h2⟩
  rw [Vec.copyAssign_capacity a b ha hb, if_neg (by omega)]

/-- C4 witness: concrete inputs exercising the in-place path, the successful
copy-and-swap path and the failing copy-and-swap path. -/
theorem C4_copy_assignment_witness :
    ((⟨[some 5, some 6], 2⟩ : Vec Nat).size
        ≤ (⟨[some 1], 1⟩ : Vec Nat).capacity →
       Vec.copyAssignF false (⟨[some 1], 1⟩ : Vec Nat) ⟨[some 5, some 6], 2⟩ 1 =
         (Except.ok (), Vec.copyAssign false ⟨[some 1], 1⟩ ⟨[some 5, some 6], 2⟩) ∧
       (Vec.copyAssign false (⟨[some 1], 1⟩ : Vec Nat) ⟨[some 5, some 6], 2⟩).size
         = (⟨[some 5, some 6], 2⟩ : Vec Nat).size ∧
       (Vec.copyAssign false (⟨[some 1], 1⟩ : Vec Nat) ⟨[some 5, some 6], 2⟩).elems
         = (⟨[some 5, some 6], 2⟩ : Vec Nat).elems ∧
       (Vec.copyAssign false (⟨[some 1], 1⟩ : Vec Nat) ⟨[some 5, some 6], 2⟩).capacity
         = (⟨[some 1], 1⟩ : Vec Nat).capacity) ∧
    ((⟨[some 1], 1⟩ : Vec Nat).capacity < (⟨[some 5, some 6], 2⟩ : Vec Nat).size →
       (⟨[some 5, some 6], 2⟩ : Vec Nat).size ≤ 1 →
       Vec.copyAssignF false (⟨[some 1], 1⟩ : Vec Nat) ⟨[some 5, some 6], 2⟩ 1 =
         (Except.ok (), Vec.copy ⟨[some 5, some 6], 2⟩) ∧
       (Vec.copy (⟨[some 5, some 6], 2⟩ : Vec Nat)).size
         = (⟨[some 5, some 6], 2⟩ : Vec Nat).size ∧
       (Vec.copy (⟨[some 5, some 6], 2⟩ : Vec Nat)).elems
         = (⟨[some 5, some 6], 2⟩ : Vec Nat).elems) ∧
    ((⟨[some 1], 1⟩ : Vec Nat).capacity < (⟨[some 5, some 6], 2⟩ : Vec Nat).size →
       1 < (⟨[some 5, some 6], 2⟩ : Vec Nat).size →
       Vec.copyAssignF false (⟨[some 1], 1⟩ : Vec Nat) ⟨[some 5, some 6], 2⟩ 1 =
         (Except.error (), ⟨[some 1], 1⟩)) :=
  C4_copy_assignment ⟨[some 1], 1⟩ ⟨[some 5, some 6], 2⟩ 1 (by decide) (by decide)

/-- C5 counterexample: the claim asserts that after `B = std::move(A)` (move
ASSIGNMENT) the source `A` always ends with size 0 and capacity 0.  The code
(vector.h lines 143-148) implements move assignment as a swap, so `A` ends up
holding `B`'s former contents.  With `B = [2,3]` and `A = [1]`, after
`B = std::move(A)` the source `A` has size 2, not 0. -/
theorem C5_counterexample_move_assign :
    ¬ (((⟨[some 2, some 3], 2⟩ : Vec Nat).moveAssign false ⟨[some 1], 1⟩).2.size
        = 0 ∧
       ((⟨[some 2, some 3], 2⟩ : Vec Nat).moveAssign false
        ⟨[some 1], 1⟩).2.capacity = 0) := by
  decide

/-- C5 amended: after move CONSTRUCTION `B(std::move(A))` the new vector holds
`A`'s former size, capacity and elements and `A` is left with size 0 and
capacity 0; after move ASSIGNMENT `B = std::move(A)` the two vectors exchange
contents — `B` holds `A`'s former size, capacity and elements, and `A` holds
`B`'s former contents (so `A` is empty only if `B` was).  Neither operation
can fail (`noexcept` in the source; the model is a total function). -/
theorem C5_move_semantics (v a b : Vec α) :
    (Vec.moveCtor v).1 = v ∧
    (Vec.moveCtor v).2.size = 0 ∧
    (Vec.moveCtor v).2.capacity = 0 ∧
    (Vec.moveAssign false b a).1 = a ∧
    (Vec.moveAssign false b a).2 = b :=
  ⟨rfl, rfl, rfl, rfl, rfl⟩

/-- C6: whenever an insertion runs with size = capacity, the new capacity is
exactly `max(1, 2 * capacity)`; consequently after pushing `n` elements into
an empty vector the capacity never exceeds any power of two that is at least
`n` (in particular the smallest one), and the very first push gives
capacity 1. -/
theorem C6_growth_doubling (v : Vec α) (pos : Nat) (x : α) (xs : List α)
    (m : Nat) (hfull : v.size = v.capacity) (hp : pos ≤ v.size)
    (hm : xs.length ≤ 2 ^ m) :
    (v.emplace pos x).1.capacity = max 1 (2 * v.capacity) ∧
    ((Vec.empty α).pushList xs).capacity ≤ 2 ^ m ∧
    (∀ y : α, ((Vec.empty α).pushBack y).capacity = 1) := by
  refine ⟨?_, ?_, fun y => rfl⟩
  · rw [Vec.emplace_capacity v pos x (by omega) hp, if_neg (by omega)]
    by_cases h0 : v.capacity = 0
    · rw [if_pos h0, h0]
      omega
    · rw [if_neg h0]
      omega
  · have hg := goodCap_pushList (Vec.empty α) xs (goodCap_empty α)
    have hsz := Vec.pushList_size (Vec.empty α) xs
    refine goodCap_capacity_le_pow _ hg m ?_
    rw [hsz]
    show 0 + xs.length ≤ 2 ^ m
    omega

/-- C6 witness: a full one-element vector doubles to capacity 2 on insertion,
three pushes from empty stay within capacity 4, one push gives capacity 1. -/
theorem C6_growth_doubling_witness :
    ((⟨[some 1], 1⟩ : Vec Nat).emplace 1 2).1.capacity
      = max 1 (2 * (⟨[some 1], 1⟩ : Vec Nat).capacity) ∧
    ((Vec.empty Nat).pushList [10, 20, 30]).capacity ≤ 2 ^ 2 ∧
    (∀ y : Nat, ((Vec.empty Nat).pushBack y).capacity = 1) :=
  C6_growth_doubling ⟨[some 1], 1⟩ 1 2 [10, 20, 30] 2 (by decide) (by decide)
    (by decide)

/-- C7: `Reserve(n)` with `n ≤ capacity` changes nothing observable (the state
is literally unchanged); with `n > capacity` the new capacity is exactly `n`
and the size and live element values are unchanged. -/
theorem C7_reserve_spec (v : Vec α) (n : Nat) (hs : v.size ≤ v.capacity) :
    (n ≤ v.capacity → v.reserve n = v) ∧
    (v.capacity < n →
       (v.reserve n).capacity = n ∧
       (v.reserve n).size = v.size ∧
       (v.reserve n).elems = v.elems) := by
  refine ⟨fun h => Vec.reserve_of_le v n h,
    fun h => ⟨?_, Vec.reserve_size v n, Vec.reserve_elems v n hs⟩⟩
  rw [Vec.reserve_capacity v n hs, if_neg (by omega)]

/-- C7 witness: Reserve at both a smaller and a larger request. -/
theorem C7_reserve_spec_witness :
    (3 ≤ (⟨[some 1, none, none, none], 1⟩ : Vec Nat).capacity →
       (⟨[some 1, none, none, none], 1⟩ : Vec Nat).reserve 3
         = ⟨[some 1, none, none, none], 1⟩) ∧
    ((⟨[some 1, none, none, none], 1⟩ : Vec Nat).capacity < 3 →
       ((⟨[some 1, none, none, none], 1⟩ : Vec Nat).reserve 3).capacity = 3 ∧
       ((⟨[some 1, none, none, none], 1⟩ : Vec Nat).reserve 3).size
         = (⟨[some 1, none, none, none], 1⟩ : Vec Nat).size ∧
       ((⟨[some 1, none, none, none], 1⟩ : Vec Nat).reserve 3).elems
         = (⟨[some 1, none, none, none], 1⟩ : Vec Nat).elems) ∧
    ((⟨[some 1, none], 1⟩ : Vec Nat).capacity < 5 →
       ((⟨[some 1, none], 1⟩ : Vec Nat).reserve 5).capacity = 5 ∧
       ((⟨[some 1, none], 1⟩ : Vec Nat).reserve 5).size
         = (⟨[some 1, none], 1⟩ : Vec Nat).size ∧
       ((⟨[some 1, none], 1⟩ : Vec Nat).reserve 5).elems
         = (⟨[some 1, none], 1⟩ : Vec Nat).elems) :=
  ⟨(C7_reserve_spec ⟨[some 1, none, none, none], 1⟩ 3 (by decide)).1,
   (C7_reserve_spec ⟨[some 1, none, none, none], 1⟩ 3 (by decide)).2,
   (C7_reserve_spec ⟨[some 1, none], 1⟩ 5 (by decide)).2⟩

/-- C8: `Resize(n)` with `n < size` destroys exactly the trailing `size - n`
elements (slots `[n, size)` become raw, all other slots untouched), sets size
to `n` and keeps the capacity; with `n > size` it first ensures capacity at
least `n` (reallocating to exactly `n` only when `n` exceeds the old
capacity), then default-constructs the `n - size` missing trailing elements,
keeping the first `size` element values. -/
theorem C8_resize_spec (d : α) (v : Vec α) (n : Nat)
    (hs : v.size ≤ v.capacity) :
    (n < v.size →
       (v.resize d n).size = n ∧
       (v.resize d n).capacity = v.capacity ∧
       (v.resize d n).elems = v.elems.take n ∧
       (∀ j, n ≤ j → j < v.size → ((v.resize d n).data).getD j none = none) ∧
       (∀ j, v.size ≤ j → ((v.resize d n).data).getD j none
         = v.data.getD j none)) ∧
    (v.size < n →
       (v.resize d n).size = n ∧
       n ≤ (v.resize d n).capacity ∧
       (v.resize d n).capacity = (if n ≤ v.capacity then v.capacity else n) ∧
       (v.resize d n).elems
         = v.elems ++ List.replicate (n - v.size) (some d)) := by
  constructor
  · intro h
    refine ⟨Vec.resize_size d v n hs, ?_,
      Vec.resize_elems_shrink d v n hs h, ?_, ?_⟩
    · rw [Vec.resize_capacity d v n hs, if_pos (by omega)]
    · intro j h1 h2
      rw [Vec.resize_getD_shrink d v n hs h, if_pos (by omega)]
    · intro j h1
      rw [Vec.resize_getD_shrink d v n hs h, if_neg (by omega)]
  · intro h
    have hcap := Vec.resize_capacity d v n hs
    refine ⟨Vec.resize_size d v n hs, ?_, hcap,
      Vec.resize_elems_grow d v n hs h⟩
    rw [hcap]
    split <;> omega

/-- C8 witness: the spec scenario — `[1,99,3]` resized to 1 keeps capacity and
leaves `[1]`; `[1]` resized to 4 grows with default-constructed elements. -/
theorem C8_resize_spec_witness :
    (1 < (⟨[some 1, some 99, some 3, none], 3⟩ : Vec Nat).size →
       ((⟨[some 1, some 99, some 3, none], 3⟩ : Vec Nat).resize 0 1).size = 1 ∧
       ((⟨[some 1, some 99, some 3, none], 3⟩ : Vec Nat).resize 0 1).capacity
         = (⟨[some 1, some 99, some 3, none], 3⟩ : Vec Nat).capacity ∧
       ((⟨[some 1, some 99, some 3, none], 3⟩ : Vec Nat).resize 0 1).elems
         = (⟨[some 1, some 99, some 3, none], 3⟩ : Vec Nat).elems.take 1 ∧
       (∀ j, 1 ≤ j → j < (⟨[some 1, some 99, some 3, none], 3⟩ : Vec Nat).size →
         (((⟨[some 1, some 99, some 3, none], 3⟩ : Vec Nat).resize 0 1).data).getD
           j none = none) ∧
       (∀ j, (⟨[some 1, some 99, some 3, none], 3⟩ : Vec Nat).size ≤ j →
         (((⟨[some 1, some 99, some 3, none], 3⟩ : Vec Nat).resize 0 1).data).getD
           j none
           = (⟨[some 1, some 99, some 3, none], 3⟩ : Vec Nat).data.getD j none)) ∧
    ((⟨[some 1], 1⟩ : Vec Nat).size < 4 →
       ((⟨[some 1], 1⟩ : Vec Nat).resize 0 4).size = 4 ∧
       4 ≤ ((⟨[some 1], 1⟩ : Vec Nat).resize 0 4).capacity ∧
       ((⟨[some 1], 1⟩ : Vec Nat).resize 0 4).capacity
         = (if 4 ≤ (⟨[some 1], 1⟩ : Vec Nat).capacity
            then (⟨[some 1], 1⟩ : Vec Nat).capacity else 4) ∧
       ((⟨[some 1], 1⟩ : Vec Nat).resize 0 4).elems
         = (⟨[some 1], 1⟩ : Vec Nat).elems
           ++ List.replicate (4 - (⟨[some 1], 1⟩ : Vec Nat).size) (some 0)) :=
  ⟨(C8_resize_spec 0 ⟨[some 1, some 99, some 3, none], 3⟩ 1 (by decide)).1,
   (C8_resize_spec 0 ⟨[some 1], 1⟩ 4 (by decide)).2⟩

/-- C9: `Erase(pos)` on a position inside `[0, size)` shifts every later
element one slot left (preserving order), destroys the vacated last slot,
decrements the size, returns `pos`, and never changes the capacity. -/
theorem C9_erase_spec (v : Vec α) (pos : Nat)
    (hs : v.size ≤ v.capacity) (hp : pos < v.size) :
    (v.erase pos).2 = pos ∧
    (v.erase pos).1.size = v.size - 1 ∧
    (v.erase pos).1.capacity = v.capacity ∧
    (v.erase pos).1.elems = v.elems.take pos ++ v.elems.drop (pos + 1) :=
  ⟨Vec.erase_idx v pos, Vec.erase_size v pos, Vec.erase_capacity v pos hs hp,
   Vec.erase_elems v pos hs hp⟩

/-- C9 witness: the spec scenario — erasing index 2 of `[1,99,2,3]` gives
`[1,99,3]`, size 3, capacity unchanged. -/
theorem C9_erase_spec_witness :
    ((⟨[some 1, some 99, some 2, some 3], 4⟩ : Vec Nat).erase 2).2 = 2 ∧
    ((⟨[some 1, some 99, some 2, some 3], 4⟩ : Vec Nat).erase 2).1.size
      = (⟨[some 1, some 99, some 2, some 3], 4⟩ : Vec Nat).size - 1 ∧
    ((⟨[some 1, some 99, some 2, some 3], 4⟩ : Vec Nat).erase 2).1.capacity
      = (⟨[some 1, some 99, some 2, some 3], 4⟩ : Vec Nat).capacity ∧
    ((⟨[some 1, some 99, some 2, some 3], 4⟩ : Vec Nat).erase 2).1.elems
      = (⟨[some 1, some 99, some 2, some 3], 4⟩ : Vec Nat).elems.take 2
        ++ (⟨[some 1, some 99, some 2, some 3], 4⟩ : Vec Nat).elems.drop 3 :=
  C9_erase_spec ⟨[some 1, some 99, some 2, some 3], 4⟩ 2 (by decide) (by decide)

/-- C10: self-assignment is a no-op — both the copy and the move assignment
operator first test `this != &rhs` (modelled by the `same` flag) and leave the
vector exactly unchanged when the operand is the vector itself. -/
theorem C10_self_assignment_noop (v : Vec α) :
    Vec.copyAssign true v v = v ∧ Vec.moveAssign true v v = (v, v) :=
  ⟨rfl, rfl⟩
